import Mathlib

set_option maxRecDepth 100000

/-!
Shallow embedding of the `cmd/xraysubrefiner` program of ircfspace/XrayRefiner
(`main.go`, `probe.go`, `validate.go`).

Go strings are modelled as `List Char` in which every element is a byte-valued
character (code point < 256): Go strings are byte sequences and every string
operation the program performs is byte oriented.  A multi-byte UTF-8 Go string
is represented by the list of its bytes, one `Char` per byte.

Behaviour of the Go standard library that the program calls (`strings`,
`strconv.Atoi`, `encoding/base64`, `encoding/json`, `net/url`) is modelled by
executable Lean functions that follow the library sources; simplifications are
noted at each definition.
-/

/-- A Go string: a list of byte-valued characters. -/
abbrev GoStr := List Char

/-- Byte-char list of an ASCII Lean string literal. -/
def goStr (s : String) : GoStr := s.data

/-- `unicode.IsSpace` as used by `strings.TrimSpace`, restricted to the
Latin-1 range (the full table also holds higher Unicode spaces, which a
byte-modelled string never starts or ends with as a single char). -/
def isGoSpace (c : Char) : Bool :=
  c == ' ' || c == '\t' || c == '\n' || c == Char.ofNat 11 || c == Char.ofNat 12 ||
    c == '\r' || c == Char.ofNat 0x85 || c == Char.ofNat 0xA0

/-- Go `strings.TrimSpace`. -/
def goTrimSpace (l : GoStr) : GoStr :=
  ((l.dropWhile isGoSpace).reverse.dropWhile isGoSpace).reverse

/-- Go `strings.HasPrefix`. -/
def goHasPfx (p l : GoStr) : Bool := p.isPrefixOf l

/-- Go `strings.TrimPrefix`. -/
def goTrimPfx (p l : GoStr) : GoStr := if goHasPfx p l then l.drop p.length else l

/-- `s[:i]` where `i = strings.IndexByte s c`; the whole string when `c` is
absent (the program only slices when the index is non-negative, which is the
same thing). -/
def goTakeUntil (c : Char) (l : GoStr) : GoStr := l.takeWhile (fun x => x != c)

/-- Go `strings.Cut` / `split(s, c, true)` of net/url: text before the first
`c` and text after it (empty when `c` is absent). -/
def goCutByte (c : Char) (l : GoStr) : GoStr × GoStr :=
  (l.takeWhile (fun x => x != c), (l.dropWhile (fun x => x != c)).drop 1)

/-- Go `strings.Contains` for a single-byte needle. -/
def goContainsChar (c : Char) (l : GoStr) : Bool := l.any (fun x => x == c)

/-- Go `strings.Contains`. -/
def goContains (l sub : GoStr) : Bool :=
  match l with
  | [] => sub.isEmpty
  | _ :: rest => sub.isPrefixOf l || goContains rest sub

/-- Go `strings.Count` for a single-byte pattern. -/
def goCountChar (c : Char) (l : GoStr) : Nat := (l.filter (fun x => x == c)).length

/-- Go `strings.Split` with a single-byte separator.  `goSplitByte sep "" = [""]`,
exactly as in Go. -/
def goSplitByte (sep : Char) : GoStr → List GoStr
  | [] => [[]]
  | c :: rest =>
    if c = sep then [] :: goSplitByte sep rest
    else
      match goSplitByte sep rest with
      | [] => [[c]]
      | h :: t => (c :: h) :: t

/-- Go `strings.SplitN(s, sep, 2)` with a single-byte separator. -/
def goSplitN2 (sep : Char) (s : GoStr) : List GoStr :=
  if goContainsChar sep s then
    [s.takeWhile (fun x => x != sep), (s.dropWhile (fun x => x != sep)).drop 1]
  else [s]

/-- Go `strings.Join(lines, "\n")`. -/
def goJoinNl : List GoStr → GoStr
  | [] => []
  | [x] => x
  | x :: xs => x ++ '\n' :: goJoinNl xs

/-- Go `strings.ToLower` (ASCII case folding; the program only lowercases
ASCII error messages and scheme names). -/
def goToLower (l : GoStr) : GoStr := l.map Char.toLower

/-- The bytes of a Go string (the model keeps every char byte-valued). -/
def goBytes (l : GoStr) : List Nat := l.map Char.toNat

/-- A Go string built from bytes (`string(b)` on a `[]byte`). -/
def bytesGo (b : List Nat) : GoStr := b.map Char.ofNat

def isDigit (c : Char) : Bool := decide ('0' ≤ c) && decide (c ≤ '9')

def natOfDigits (l : GoStr) : Nat := l.foldl (fun a c => a * 10 + (c.toNat - 48)) 0

/-- Go `strconv.Atoi`: optional sign, one or more decimal digits, 64-bit
range check (out-of-range input returns an error from `Atoi`'s point of view,
since the program always tests `err != nil`). -/
def goAtoi (s : GoStr) : Option Int :=
  let sd : Int × GoStr :=
    match s with
    | '+' :: rest => (1, rest)
    | '-' :: rest => (-1, rest)
    | _ => (1, s)
  if sd.2 = [] ∨ ¬ sd.2.all isDigit then none
  else
    let v : Int := sd.1 * (natOfDigits sd.2 : Int)
    if v < -(2 ^ 63) ∨ v > 2 ^ 63 - 1 then none else some v

/-! ## encoding/base64, StdEncoding -/

def b64Alphabet : GoStr :=
  goStr "ABCDEFGHIJKLMNOPQRSTUVWXYZabcdefghijklmnopqrstuvwxyz0123456789+/"

def b64Char (v : Nat) : Char := b64Alphabet.getD v 'A'

def b64Val (c : Char) : Option Nat := b64Alphabet.findIdx? (fun x => x == c)

/-- `base64.StdEncoding.EncodeToString`. -/
def base64EncodeBytes : List Nat → GoStr
  | [] => []
  | [b0] => [b64Char (b0 / 4), b64Char (b0 % 4 * 16), '=', '=']
  | [b0, b1] => [b64Char (b0 / 4), b64Char (b0 % 4 * 16 + b1 / 16), b64Char (b1 % 16 * 4), '=']
  | b0 :: b1 :: b2 :: rest =>
      b64Char (b0 / 4) :: b64Char (b0 % 4 * 16 + b1 / 16) ::
        b64Char (b1 % 16 * 4 + b2 / 64) :: b64Char (b2 % 64) :: base64EncodeBytes rest

/-- Decoding loop of `base64.StdEncoding.DecodeString` after newline removal:
four-char quanta, `=` padding only in the final quantum, nothing after a
padded quantum, length a multiple of four.  Non-canonical trailing bits are
accepted (Go only rejects them in strict mode). -/
def base64DecodeCore : GoStr → Option (List Nat)
  | [] => some []
  | c0 :: c1 :: c2 :: c3 :: rest =>
    match b64Val c0, b64Val c1 with
    | some v0, some v1 =>
      if c3 = '=' then
        if rest ≠ [] then none
        else if c2 = '=' then some [v0 * 4 + v1 / 16]
        else
          match b64Val c2 with
          | some v2 => some [v0 * 4 + v1 / 16, v1 % 16 * 16 + v2 / 4]
          | none => none
      else
        match b64Val c2, b64Val c3 with
        | some v2, some v3 =>
          (base64DecodeCore rest).map
            (fun bs => (v0 * 4 + v1 / 16) :: (v1 % 16 * 16 + v2 / 4) :: (v2 % 4 * 64 + v3) :: bs)
        | _, _ => none
    | _, _ => none
  | _ => none

/-- `base64.StdEncoding.DecodeString` (which ignores `\r` and `\n`). -/
def base64Decode (s : GoStr) : Option (List Nat) :=
  base64DecodeCore (s.filter (fun c => c != '\r' && c != '\n'))

/-! ## net/url model

`url.Parse` as the program uses it: only the scheme, the userinfo and the
host survive into the model (`Hostname()`, `Port()` and `User.Username()` are
the only accessors the program calls, plus the raw `Host` field).  Query and
fragment are split off as in the library; path and fragment percent-escapes
are validated because `setPath`/`setFragment` report those errors.  The IPv6
zone (`%25`) special case of `parseHost` is not modelled. -/

def isAlpha (c : Char) : Bool :=
  (decide ('a' ≤ c) && decide (c ≤ 'z')) || (decide ('A' ≤ c) && decide (c ≤ 'Z'))

def isAlphaNum (c : Char) : Bool := isAlpha c || isDigit c

/-- `stringContainsCTLByte` test of net/url. -/
def isCtl (c : Char) : Bool := decide (c.toNat < 0x20) || c == Char.ofNat 0x7f

def hexVal (c : Char) : Option Nat :=
  if isDigit c then some (c.toNat - 48)
  else if decide ('a' ≤ c) && decide (c ≤ 'f') then some (c.toNat - 87)
  else if decide ('A' ≤ c) && decide (c ≤ 'F') then some (c.toNat - 55)
  else none

/-- net/url `unescape` for modes that only validate `%` sequences
(path, fragment, userinfo). -/
def pctDecode : GoStr → Option GoStr
  | [] => some []
  | '%' :: h1 :: h2 :: rest =>
    match hexVal h1, hexVal h2 with
    | some a, some b => (pctDecode rest).map (fun r => Char.ofNat (a * 16 + b) :: r)
    | _, _ => none
  | '%' :: _ => none
  | c :: rest => (pctDecode rest).map (fun r => c :: r)

/-- ASCII characters `unescape(host, encodeHost)` accepts unescaped:
alphanumerics, the unreserved marks and the sub-delims it special-cases;
bytes ≥ 0x80 pass through. -/
def isHostChar (c : Char) : Bool :=
  isAlphaNum c || decide (c.toNat ≥ 0x80) || (goStr "-._~!$&'()*+,;=:[]<>\"").contains c

/-- `unescape(host, encodeHost)`: percent sequences decoded, other ASCII
characters must be acceptable host characters. -/
def hostUnescape : GoStr → Option GoStr
  | [] => some []
  | '%' :: h1 :: h2 :: rest =>
    match hexVal h1, hexVal h2 with
    | some a, some b => (hostUnescape rest).map (fun r => Char.ofNat (a * 16 + b) :: r)
    | _, _ => none
  | '%' :: _ => none
  | c :: rest => if isHostChar c then (hostUnescape rest).map (fun r => c :: r) else none

/-- net/url `validOptionalPort`: empty, or `:` followed by digits only. -/
def validOptionalPort (p : GoStr) : Bool :=
  match p with
  | [] => true
  | ':' :: digits => digits.all isDigit
  | _ => false

/-- Characters `validEncoded(userinfo, encodeUserPassword)` accepts. -/
def isUserinfoChar (c : Char) : Bool :=
  isAlphaNum c || (goStr "-._~!$&'()*+,;=:@[]%").contains c

/-- net/url `getScheme`: `none` is the "missing protocol scheme" error,
`some ([], s)` means no scheme was found. -/
def getSchemeAux (orig acc : GoStr) : GoStr → Option (GoStr × GoStr)
  | [] => some ([], orig)
  | c :: rest =>
    if isAlpha c then getSchemeAux orig (acc ++ [c]) rest
    else if isDigit c || c == '+' || c == '-' || c == '.' then
      if acc = [] then some ([], orig) else getSchemeAux orig (acc ++ [c]) rest
    else if c = ':' then
      if acc = [] then none else some (acc, rest)
    else some ([], orig)

def getScheme (s : GoStr) : Option (GoStr × GoStr) := getSchemeAux s [] s

/-- net/url `parseHost` (zone handling omitted; the program never feeds it a
zone). -/
def parseHost (host : GoStr) : Option GoStr :=
  if goHasPfx (goStr "[") host then
    let after := (host.reverse.takeWhile (fun c => c != ']')).reverse
    if after.length = host.length then none
    else if ¬ validOptionalPort after then none
    else hostUnescape host
  else
    let after := (host.reverse.takeWhile (fun c => c != ':')).reverse
    if after.length = host.length then hostUnescape host
    else if ¬ validOptionalPort (':' :: after) then none
    else hostUnescape host

/-- net/url `parseAuthority`: splits the userinfo at the last `@`, validates
its characters, percent-decodes username and password (split at the first
`:`), and parses the host.  Returns `(username?, decoded host)`. -/
def parseAuthority (authority : GoStr) : Option (Option GoStr × GoStr) :=
  if ¬ goContainsChar '@' authority then
    (parseHost authority).map (fun h => (none, h))
  else
    let hostPart := (authority.reverse.takeWhile (fun c => c != '@')).reverse
    let userinfo := authority.take (authority.length - hostPart.length - 1)
    match parseHost hostPart with
    | none => none
    | some h =>
      if ¬ userinfo.all isUserinfoChar then none
      else if goContainsChar ':' userinfo then
        match pctDecode (userinfo.takeWhile (fun c => c != ':')),
            pctDecode ((userinfo.dropWhile (fun c => c != ':')).drop 1) with
        | some un, some _ => some (some un, h)
        | _, _ => none
      else
        match pctDecode userinfo with
        | some un => some (some un, h)
        | none => none

/-- The parts of a `url.URL` that the program reads. -/
structure GoURL where
  scheme : GoStr
  username : Option GoStr
  host : GoStr
deriving DecidableEq, Repr

def goHasSfx (p l : GoStr) : Bool := p.reverse.isPrefixOf l.reverse

/-- net/url `splitHostPort` (used by `Hostname()` and `Port()`). -/
def splitHostPort (hostPort : GoStr) : GoStr × GoStr :=
  let after := (hostPort.reverse.takeWhile (fun c => c != ':')).reverse
  let hp :=
    if after.length ≠ hostPort.length ∧ validOptionalPort (':' :: after) then
      (hostPort.take (hostPort.length - after.length - 1), after)
    else (hostPort, [])
  if goHasPfx (goStr "[") hp.1 ∧ goHasSfx (goStr "]") hp.1 then
    ((hp.1.drop 1).dropLast, hp.2)
  else hp

def GoURL.hostname (u : GoURL) : GoStr := (splitHostPort u.host).1

def GoURL.portStr (u : GoURL) : GoStr := (splitHostPort u.host).2

/-- `url.Parse`.  The "first path segment cannot contain colon" error for
scheme-less relative references is not modelled (the program only parses
scheme-prefixed lines). -/
def urlParse (raw : GoStr) : Option GoURL :=
  let cut := goCutByte '#' raw
  if cut.1.any isCtl then none
  else if (pctDecode cut.2).isNone then none
  else
    match getScheme cut.1 with
    | none => none
    | some sr =>
      let scheme := goToLower sr.1
      let rest := (goCutByte '?' sr.2).1
      if goHasPfx (goStr "//") rest ∧ (scheme ≠ [] ∨ ¬ goHasPfx (goStr "///") rest) then
        let after := rest.drop 2
        let authority := after.takeWhile (fun c => c != '/')
        let path := after.dropWhile (fun c => c != '/')
        if (pctDecode path).isNone then none
        else
          match parseAuthority authority with
          | none => none
          | some uh => some ⟨scheme, uh.1, uh.2⟩
      else if ¬ goHasPfx (goStr "/") rest then some ⟨scheme, none, []⟩
      else if (pctDecode rest).isNone then none
      else some ⟨scheme, none, []⟩

/-! ## encoding/json model

`json.Unmarshal` into `map[string]any`: numbers become float64, modelled
here as exact rationals (the decimal literal's value; float64 rounding is
not modelled), strings become Go strings, objects become maps whose later
duplicate keys overwrite earlier ones.  Surrogate pairs in `\u` escapes are
each replaced by U+FFFD instead of being combined, and invalid UTF-8 bytes
pass through unreplaced; the program never relies on either. -/

inductive JVal
  | jnull
  | jbool (b : Bool)
  | jnum (mant : Int) (exp10 : Int)
  | jstr (s : GoStr)
  | jarr (xs : List JVal)
  | jobj (fields : List (GoStr × JVal))

/-- The rational value a `jnum` denotes. -/
def decValue (m e : Int) : ℚ := (m : ℚ) * (10 : ℚ) ^ e

def jsonWsByte (b : Nat) : Bool := b == 0x20 || b == 0x09 || b == 0x0A || b == 0x0D

def skipWs (l : List Nat) : List Nat := l.dropWhile jsonWsByte

def isDigitB (b : Nat) : Bool := 48 ≤ b && b ≤ 57

def hexValB (b : Nat) : Option Nat :=
  if isDigitB b then some (b - 48)
  else if 97 ≤ b ∧ b ≤ 102 then some (b - 87)
  else if 65 ≤ b ∧ b ≤ 70 then some (b - 55)
  else none

def utf8Bytes (cp : Nat) : List Nat :=
  if cp < 0x80 then [cp]
  else if cp < 0x800 then [0xC0 + cp / 64, 0x80 + cp % 64]
  else if cp < 0x10000 then [0xE0 + cp / 4096, 0x80 + cp / 64 % 64, 0x80 + cp % 64]
  else [0xF0 + cp / 262144, 0x80 + cp / 4096 % 64, 0x80 + cp / 64 % 64, 0x80 + cp % 64]

def escChar (b : Nat) : Option Char :=
  if b = 34 then some '"'
  else if b = 92 then some '\\'
  else if b = 47 then some '/'
  else if b = 98 then some (Char.ofNat 8)
  else if b = 102 then some (Char.ofNat 12)
  else if b = 110 then some '\n'
  else if b = 114 then some '\r'
  else if b = 116 then some '\t'
  else none

/-- JSON string body (after the opening quote): content and remaining input. -/
def parseJStr : List Nat → Option (GoStr × List Nat)
  | [] => none
  | 34 :: rest => some ([], rest)
  | 92 :: 117 :: h1 :: h2 :: h3 :: h4 :: rest =>
    (match hexValB h1, hexValB h2, hexValB h3, hexValB h4 with
     | some a, some b, some c, some d =>
       let cp := a * 4096 + b * 256 + c * 16 + d
       let cp := if 0xD800 ≤ cp ∧ cp < 0xE000 then 0xFFFD else cp
       (parseJStr rest).map (fun r => (bytesGo (utf8Bytes cp) ++ r.1, r.2))
     | _, _, _, _ => none)
  | 92 :: e :: rest =>
    (match escChar e with
     | some c => (parseJStr rest).map (fun r => (c :: r.1, r.2))
     | none => none)
  | b :: rest =>
    if b < 0x20 then none
    else (parseJStr rest).map (fun r => (Char.ofNat b :: r.1, r.2))

def natOfDigitBytes (l : List Nat) : Nat := l.foldl (fun a b => a * 10 + (b - 48)) 0

/-- JSON number grammar: `-? (0 | [1-9][0-9]*) (. [0-9]+)? ([eE][+-]?[0-9]+)?`,
as the exact decimal `mantissa × 10^exp10` it denotes. -/
def parseJNum (l : List Nat) : Option ((Int × Int) × List Nat) :=
  let sg : Bool × List Nat := match l with | 45 :: r => (true, r) | _ => (false, l)
  let ip := sg.2.takeWhile isDigitB
  let l2 := sg.2.dropWhile isDigitB
  if ip = [] then none
  else if ip.length > 1 ∧ ip.headD 0 = 48 then none
  else
    let fr : Option (List Nat × List Nat) :=
      match l2 with
      | 46 :: r =>
        let fd := r.takeWhile isDigitB
        if fd = [] then none else some (fd, r.dropWhile isDigitB)
      | _ => some ([], l2)
    match fr with
    | none => none
    | some (fd, l3) =>
      let ex : Option (Int × List Nat) :=
        match l3 with
        | 101 :: r =>
          (match r with
           | 45 :: r2 =>
             let ed := r2.takeWhile isDigitB
             if ed = [] then none else some (-(natOfDigitBytes ed : Int), r2.dropWhile isDigitB)
           | 43 :: r2 =>
             let ed := r2.takeWhile isDigitB
             if ed = [] then none else some ((natOfDigitBytes ed : Int), r2.dropWhile isDigitB)
           | _ =>
             let ed := r.takeWhile isDigitB
             if ed = [] then none else some ((natOfDigitBytes ed : Int), r.dropWhile isDigitB))
        | 69 :: r =>
          (match r with
           | 45 :: r2 =>
             let ed := r2.takeWhile isDigitB
             if ed = [] then none else some (-(natOfDigitBytes ed : Int), r2.dropWhile isDigitB)
           | 43 :: r2 =>
             let ed := r2.takeWhile isDigitB
             if ed = [] then none else some ((natOfDigitBytes ed : Int), r2.dropWhile isDigitB)
           | _ =>
             let ed := r.takeWhile isDigitB
             if ed = [] then none else some ((natOfDigitBytes ed : Int), r.dropWhile isDigitB))
        | _ => some (0, l3)
      match ex with
      | none => none
      | some (e, l4) =>
        let mant : Int := natOfDigitBytes (ip ++ fd)
        let mant : Int := if sg.1 then -mant else mant
        some ((mant, e - (fd.length : Int)), l4)

mutual

/-- JSON value, fuel-bounded (fuel ≥ input length always suffices). -/
def parseJVal : Nat → List Nat → Option (JVal × List Nat)
  | 0, _ => none
  | fuel + 1, l =>
    match skipWs l with
    | 110 :: 117 :: 108 :: 108 :: rest => some (.jnull, rest)
    | 116 :: 114 :: 117 :: 101 :: rest => some (.jbool true, rest)
    | 102 :: 97 :: 108 :: 115 :: 101 :: rest => some (.jbool false, rest)
    | 34 :: rest => (parseJStr rest).map (fun r => (.jstr r.1, r.2))
    | 123 :: rest => (parseJObj fuel true rest).map (fun r => (.jobj r.1, r.2))
    | 91 :: rest => (parseJArr fuel true rest).map (fun r => (.jarr r.1, r.2))
    | l2 => (parseJNum l2).map (fun r => (.jnum r.1.1 r.1.2, r.2))

/-- Object members after `{` or `,`; `allowEnd` permits an immediate `}`
(no trailing commas, as in Go's scanner). -/
def parseJObj : Nat → Bool → List Nat → Option (List (GoStr × JVal) × List Nat)
  | 0, _, _ => none
  | fuel + 1, allowEnd, l =>
    match skipWs l with
    | 125 :: rest => if allowEnd then some ([], rest) else none
    | 34 :: rest =>
      (match parseJStr rest with
       | none => none
       | some (key, r1) =>
         match skipWs r1 with
         | 58 :: r2 =>
           (match parseJVal fuel r2 with
            | none => none
            | some (v, r3) =>
              match skipWs r3 with
              | 44 :: r4 => (parseJObj fuel false r4).map (fun t => ((key, v) :: t.1, t.2))
              | 125 :: r4 => some ([(key, v)], r4)
              | _ => none)
         | _ => none)
    | _ => none

/-- Array elements after `[` or `,`. -/
def parseJArr : Nat → Bool → List Nat → Option (List JVal × List Nat)
  | 0, _, _ => none
  | fuel + 1, allowEnd, l =>
    match skipWs l with
    | 93 :: rest => if allowEnd then some ([], rest) else none
    | l2 =>
      match parseJVal fuel l2 with
      | none => none
      | some (v, r1) =>
        match skipWs r1 with
        | 44 :: r2 => (parseJArr fuel false r2).map (fun t => (v :: t.1, t.2))
        | 93 :: r2 => some ([v], r2)
        | _ => none

end

/-- `json.Unmarshal(payload, &m)` for `m : map[string]any`: the payload must
be one JSON object followed only by whitespace. -/
def jsonUnmarshalObj (bytes : List Nat) : Option (List (GoStr × JVal)) :=
  match parseJVal (bytes.length + 1) bytes with
  | some (JVal.jobj fields, rest) => if skipWs rest = [] then some fields else none
  | _ => none

/-- Go map read `m[key]`: later duplicate keys overwrote earlier ones. -/
def mapGet (fields : List (GoStr × JVal)) (key : GoStr) : Option JVal :=
  (fields.reverse.find? (fun kv => kv.1 == key)).map (fun kv => kv.2)

/-- Go `v, _ := x.(string)`: the string value, or `""` when `x` is not a
string (or absent). -/
def jsonStringOf : Option JVal → GoStr
  | some (JVal.jstr s) => s
  | _ => []

/-! ## validate.go -/

/-- The error sites of `validate.go`, one constructor per `return`-an-error
site (the Go code returns formatted messages; only their identity matters). -/
inductive VErr
  | unsupportedScheme
  | parseError
  | missingHost
  | missingPort
  | portOutOfRange (p : Int)
  | missingUser
  | emptyMethod
  | vmessEmptyPayload
  | vmessBase64
  | vmessJson
  | vmessMissingAdd
  | vmessBadPort
  | vmessPortOutOfRange (p : Int)
  | vmessMissingId
deriving DecidableEq, Repr

/-- `parsePort`: error on empty string, else `strconv.Atoi` (its two error
messages are collapsed into `none`). -/
def parsePort (p : GoStr) : Option Int :=
  if p = [] then none else goAtoi p

/-- `decodeVmessBase64`: trim, URL-safe to standard alphabet, pad to a
multiple of four, standard base64 decode. -/
def decodeVmessBase64 (b64 : GoStr) : Option (List Nat) :=
  let b := goTrimSpace b64
  if b = [] then none
  else
    let b := b.map (fun c => if c = '-' then '+' else c)
    let b := b.map (fun c => if c = '_' then '/' else c)
    let b := if b.length % 4 = 0 then b else b ++ List.replicate (4 - b.length % 4) '='
    base64Decode b

/-- `int(val)` for a float64 holding the decimal `m × 10^e`: truncation
toward zero. -/
def decTrunc (m e : Int) : Int :=
  if 0 ≤ e then m * 10 ^ e.toNat else Int.tdiv m (10 ^ (-e).toNat)

/-- `extractPortFromJSON`.  `int(val)` for the float64 case is truncation
toward zero; the `int` case of the source is unreachable through
`encoding/json` (which only produces float64 numbers). -/
def extractPortFromJSON : Option JVal → Option Int
  | some (JVal.jstr s) => if s = [] then none else goAtoi s
  | some (JVal.jnum m e) => some (decTrunc m e)
  | _ => none

/-- The vmess payload: text after `vmess://`, cut at the first `#`, trimmed
(lines 71–76 of validate.go, identically lines 100–104 of probe.go). -/
def vmessPayload (line : GoStr) : GoStr :=
  goTrimSpace (goTakeUntil '#' (goTrimPfx (goStr "vmess://") line))

def validateVmess (line : GoStr) : Option VErr :=
  let raw := vmessPayload line
  if raw = [] then some .vmessEmptyPayload
  else
    match decodeVmessBase64 raw with
    | none => some .vmessBase64
    | some payload =>
      match jsonUnmarshalObj payload with
      | none => some .vmessJson
      | some m =>
        let host := jsonStringOf (mapGet m (goStr "add"))
        if goTrimSpace host = [] then some .vmessMissingAdd
        else
          match extractPortFromJSON (mapGet m (goStr "port")) with
          | none => some .vmessBadPort
          | some port =>
            if port ≤ 0 ∨ port > 99999 then some (.vmessPortOutOfRange port)
            else
              let id := jsonStringOf (mapGet m (goStr "id"))
              if goTrimSpace id = [] then some .vmessMissingId else none

def validateVless (line : GoStr) : Option VErr :=
  match urlParse line with
  | none => some .parseError
  | some u =>
    if u.hostname = [] then some .missingHost
    else
      match parsePort u.portStr with
      | none => some .missingPort
      | some port =>
        if port ≤ 0 ∨ port > 65535 then some (.portOutOfRange port)
        else
          let user := u.username.getD []
          if goTrimSpace user = [] then some .missingUser else none

def validateTrojan (line : GoStr) : Option VErr :=
  match urlParse line with
  | none => some .parseError
  | some u =>
    if u.hostname = [] then some .missingHost
    else
      match parsePort u.portStr with
      | none => some .missingPort
      | some port =>
        if port ≤ 0 ∨ port > 65535 then some (.portOutOfRange port)
        else
          let pass := u.username.getD []
          if goTrimSpace pass = [] then some .missingUser else none

/-- `decodeSSUserInfo`: base64-decode the userinfo and split at the first
`:`; on decode failure or a decoded text without `:`, split the raw userinfo
instead.  Both live return sites return a nil error. -/
def decodeSSUserInfo (user : GoStr) : GoStr × Option VErr :=
  match base64Decode user with
  | some dec =>
    let parts := goSplitN2 ':' (bytesGo dec)
    if parts.length = 2 then (parts.headD [], none)
    else ((goSplitN2 ':' user).headD [], none)
  | none => ((goSplitN2 ':' user).headD [], none)

def validateShadowsocks (line : GoStr) : Option VErr :=
  match urlParse line with
  | none => some .parseError
  | some u =>
    if u.hostname = [] then some .missingHost
    else
      match parsePort u.portStr with
      | none => some .missingPort
      | some port =>
        if port ≤ 0 ∨ port > 65535 then some (.portOutOfRange port)
        else
          let user := u.username.getD []
          if goTrimSpace user = [] then some .missingUser
          else
            let dm := decodeSSUserInfo user
            match dm.2 with
            | some e => some e
            | none => if dm.1 = [] then some .emptyMethod else none

def validateLine (line : GoStr) : Option VErr :=
  if goHasPfx (goStr "vmess://") line then validateVmess line
  else if goHasPfx (goStr "vless://") line then validateVless line
  else if goHasPfx (goStr "trojan://") line then validateTrojan line
  else if goHasPfx (goStr "ss://") line then validateShadowsocks line
  else some .unsupportedScheme

/-! ## probe.go -/

/-- `extractHostPort` (errors collapsed to `none`). -/
def extractHostPort (line0 : GoStr) : Option (GoStr × Int) :=
  let line := goTrimSpace line0
  if goHasPfx (goStr "vless://") line ∨ goHasPfx (goStr "trojan://") line ∨
      goHasPfx (goStr "ss://") line then
    match urlParse line with
    | none => none
    | some u =>
      let h := u.hostname
      let pStr := u.portStr
      if h = [] ∨ pStr = [] then none
      else (goAtoi pStr).map (fun p => (h, p))
  else if goHasPfx (goStr "vmess://") line then
    let raw := vmessPayload line
    if raw = [] then none
    else
      match decodeVmessBase64 raw with
      | none => none
      | some payload =>
        match jsonUnmarshalObj payload with
        | none => none
        | some m =>
          let h := jsonStringOf (mapGet m (goStr "add"))
          if goTrimSpace h = [] then none
          else (extractPortFromJSON (mapGet m (goStr "port"))).map (fun p => (h, p))
  else none

/-- `filterReachableLines`, with `net.DialTimeout` abstracted by the oracle
`dial` (the success of one TCP dial to a host and port under the ambient
timeout).  The worker pool affects only the order in which reachable lines
are appended; the model fixes that order to dispatch order, which leaves the
membership of the result unchanged.  `maxToTest = 1000`. -/
def filterReachableLines (dial : GoStr → Int → Bool) (lines : List GoStr) : List GoStr :=
  (lines.take 1000).filterMap (fun raw =>
    let l := goTrimSpace raw
    if l = [] then none
    else
      match extractHostPort l with
      | none => none
      | some hp =>
        if hp.1 = [] ∨ hp.2 = 0 then none
        else if dial hp.1 hp.2 then some l else none)

/-! ## main.go -/

/-- `buildLiteTail`. -/
def buildLiteTail (normal : List GoStr) (n : Int) : List GoStr :=
  let n1 : Int := if n ≤ 0 then 100 else n
  let n2 : Int := if n1 > (normal.length : Int) then (normal.length : Int) else n1
  normal.drop (normal.length - n2.toNat)

/-- `splitByIPVersion`: per line, take the URI host, cut it at the first `:`
when one is present, and classify. -/
def splitByIPVersion : List GoStr → List GoStr × List GoStr
  | [] => ([], [])
  | l :: rest =>
    let r := splitByIPVersion rest
    match urlParse l with
    | none => r
    | some u =>
      if u.host = [] then r
      else
        let host := if goContainsChar ':' u.host then (goSplitByte ':' u.host).headD [] else u.host
        if goHasPfx (goStr "[") host ∧ goHasSfx (goStr "]") host then (r.1, l :: r.2)
        else if goCountChar '.' host = 3 then (l :: r.1, r.2) else (r.1, l :: r.2)

/-- `sort.Strings`: byte-lexicographic order on Go strings. -/
def goStrLe (a b : GoStr) : Bool :=
  match a, b with
  | [], _ => true
  | _ :: _, [] => false
  | x :: xs, y :: ys =>
    if x.toNat < y.toNat then true else if y.toNat < x.toNat then false else goStrLe xs ys

def sortStrings (l : List GoStr) : List GoStr := l.mergeSort goStrLe

/-- The bytes `writeBase64Atomic` writes (lines 326–327 of main.go): the
standard-base64 encoding of the newline-joined lines. -/
def writeBase64AtomicContent (lines : List GoStr) : GoStr :=
  base64EncodeBytes (goBytes (goJoinNl lines))

def writeBase64SortedContent (lines : List GoStr) : GoStr :=
  writeBase64AtomicContent (sortStrings lines)

def writeBase64NoSortContent (lines : List GoStr) : GoStr :=
  writeBase64AtomicContent lines

/-! ## Filesystem behaviour of writeBase64Atomic (for the retry/cleanup
claims): the outcomes of WriteString, Flush, Close and each os.Rename are
inputs; the model records the filesystem actions in order and the final
result. -/

inductive FsAct
  | removeDest
  | renameTmp (attempt : Nat)
  | sleepMs (ms : Nat)
  | removeTmp
deriving DecidableEq, Repr

/-- The `busy` test of the rename loop (line 357–360 of main.go). -/
def isBusyMsg (msg : GoStr) : Bool :=
  goContains (goToLower msg) (goStr "used by another process") ||
    goContains (goToLower msg) (goStr "access is denied") ||
    goContains (goToLower msg) (goStr "sharing violation")

/-- The `for i := 0; i < maxRetries; i++` rename loop, entered with
`fuel = 6, i = 0` (`fuel` mirrors `maxRetries - i`; the `fuel = 0` case is
the dead code after the loop). -/
def renameLoop (renameRes : Nat → Option GoStr) : Nat → Nat → List FsAct × Option GoStr
  | 0, _ => ([FsAct.removeTmp], some (goStr "rename failed after retries"))
  | fuel + 1, i =>
    match renameRes i with
    | none => ([FsAct.removeDest, FsAct.renameTmp i], none)
    | some msg =>
      if isBusyMsg msg ∧ i < 5 then
        let r := renameLoop renameRes fuel (i + 1)
        (FsAct.removeDest :: FsAct.renameTmp i :: FsAct.sleepMs (200 * (i + 1)) :: r.1, r.2)
      else ([FsAct.removeDest, FsAct.renameTmp i, FsAct.removeTmp], some msg)

/-- `writeBase64Atomic` after a successful `CreateTemp`: `writeErr`,
`flushErr`, `closeErr` say whether WriteString, Flush and Close fail, and
`renameRes i` is the outcome of the i-th `os.Rename` (`none` = success). -/
def writeBase64AtomicFs (writeErr flushErr closeErr : Bool)
    (renameRes : Nat → Option GoStr) : List FsAct × Option GoStr :=
  if writeErr then ([FsAct.removeTmp], some (goStr "write error"))
  else if flushErr then ([FsAct.removeTmp], some (goStr "flush error"))
  else if closeErr then ([FsAct.removeTmp], some (goStr "close error"))
  else renameLoop renameRes 6 0
/-! ## Spec-side definitions and concrete inputs used by the claims -/

/-- A vmess line built from a JSON text (test-input constructor). -/
def vmessLineOf (json : String) : GoStr :=
  goStr "vmess://" ++ base64EncodeBytes (goBytes (goStr json))

/-- The per-line vmess validity condition exactly as claim C4 words it:
payload decodes (after URL-safe/padding normalization) to JSON with a
non-empty `add` string, a port coercing to `0 < p ≤ 99999`, and a non-empty
`id` string. -/
def vmessValidClaim (line : GoStr) : Bool :=
  match decodeVmessBase64 (vmessPayload line) with
  | none => false
  | some payload =>
    match jsonUnmarshalObj payload with
    | none => false
    | some m =>
      !(jsonStringOf (mapGet m (goStr "add"))).isEmpty &&
        (match extractPortFromJSON (mapGet m (goStr "port")) with
         | none => false
         | some p => decide (0 < p) && decide (p ≤ 99999)) &&
        !(jsonStringOf (mapGet m (goStr "id"))).isEmpty

/-- The vmess validity condition with `add` and `id` required non-empty
after whitespace trimming — what validateVmess actually enforces. -/
def vmessValidSpec (line : GoStr) : Bool :=
  match decodeVmessBase64 (vmessPayload line) with
  | none => false
  | some payload =>
    match jsonUnmarshalObj payload with
    | none => false
    | some m =>
      !(goTrimSpace (jsonStringOf (mapGet m (goStr "add")))).isEmpty &&
        (match extractPortFromJSON (mapGet m (goStr "port")) with
         | none => false
         | some p => decide (0 < p) && decide (p ≤ 99999)) &&
        !(goTrimSpace (jsonStringOf (mapGet m (goStr "id")))).isEmpty

/-- The host classification step of `splitByIPVersion` for one non-empty
host, as the code performs it: cut at the first `:` when one is present,
brackets mean IPv6, exactly three dots mean IPv4. -/
def hostFamilyV4 (host : GoStr) : Bool :=
  let h := if goContainsChar ':' host then (goSplitByte ':' host).headD [] else host
  if goHasPfx (goStr "[") h ∧ goHasSfx (goStr "]") h then false
  else decide (goCountChar '.' h = 3)

/-- Line goes to the ipv4 bucket. -/
def lineIsV4 (l : GoStr) : Bool :=
  match urlParse l with
  | none => false
  | some u => !u.host.isEmpty && hostFamilyV4 u.host

/-- Line goes to the ipv6 bucket. -/
def lineIsV6 (l : GoStr) : Bool :=
  match urlParse l with
  | none => false
  | some u => !u.host.isEmpty && !hostFamilyV4 u.host

/-- The per-host rule exactly as claim C6 words it: a bracketed host is
IPv6; otherwise strip an optional trailing `:port` and classify IPv4 exactly
when the remaining literal has exactly three dots. -/
def claimHostFamilyV4 (host : GoStr) : Bool :=
  if goHasPfx (goStr "[") host ∧ goHasSfx (goStr "]") host then false
  else
    let after := (host.reverse.takeWhile (fun c => c != ':')).reverse
    let stripped :=
      if after.length = host.length then host
      else if after.all isDigit then host.take (host.length - after.length - 1) else host
    decide (goCountChar '.' stripped = 3)

def isRenameAct : FsAct → Bool
  | FsAct.renameTmp _ => true
  | _ => false

/-- Concrete inputs used by individual claims. -/
def c1Line : GoStr := goStr "vless://u@h:70000"

def c3Line : GoStr := goStr " vless://u@h:80 "

def c4LineStr : GoStr := vmessLineOf "\x7b\"add\":\"1.2.3.4\",\"port\":\"443\",\"id\":\"u\"\x7d"

def c4LineInt : GoStr := vmessLineOf "\x7b\"add\":\"1.2.3.4\",\"port\":443,\"id\":\"u\"\x7d"

def c4Cex : GoStr := vmessLineOf "\x7b\"add\":\" \",\"port\":443,\"id\":\"u\"\x7d"

def c6Line : GoStr := goStr "vless://u@1.2:3.4.5:80"

def c10Line : GoStr := vmessLineOf "\x7b\"add\":\"h\",\"port\":443.9,\"id\":\"u\"\x7d"

/-! ## Theorems -/

theorem b64Val_b64Char : ∀ v < 64, b64Val (b64Char v) = some v := by decide

example : base64Decode (base64EncodeBytes (goBytes (goStr "any carnal pleasure."))) =
    some (goBytes (goStr "any carnal pleasure.")) := by decide

example : urlParse c1Line = some ⟨goStr "vless", some (goStr "u"), goStr "h:70000"⟩ := by decide

example : validateLine (goStr "ss://aes-256-gcm@host:80") = none := by decide

example : validateVmess c4LineStr = none := by decide

/-- C7: for every line list and integer `n`, `buildLiteTail` returns the
last `min(n, len(lines))` elements as a suffix in original input order,
with `n` treated as 100 when non-positive. -/
theorem c7_buildLiteTail_suffix (normal : List GoStr) (n : Int) :
    buildLiteTail normal n =
      normal.drop (normal.length - min (if n ≤ 0 then (100 : Int) else n).toNat normal.length) ∧
    (buildLiteTail normal n).length =
      min (if n ≤ 0 then (100 : Int) else n).toNat normal.length := by
  have h1 : buildLiteTail normal n =
      normal.drop (normal.length - min (if n ≤ 0 then (100 : Int) else n).toNat normal.length) := by
    simp only [buildLiteTail]
    split_ifs with h h2 h3 <;> congr 1 <;> omega
  exact ⟨h1, by rw [h1, List.length_drop]; omega⟩

theorem goSplitN2_headD (sep : Char) (s : GoStr) :
    (goSplitN2 sep s).headD [] = s.takeWhile (fun c => c != sep) := by
  unfold goSplitN2
  split_ifs with h
  · rfl
  · simp only [goContainsChar, List.any_eq_true] at h
    simp only [List.headD]
    symm
    rw [List.takeWhile_eq_self_iff]
    intro a ha
    simp only [bne_iff_ne, ne_eq]
    intro rfl0
    exact h ⟨a, ha, by simp [rfl0]⟩

theorem goSplitN2_length_two (sep : Char) (s : GoStr) :
    (goSplitN2 sep s).length = 2 ↔ goContainsChar sep s = true := by
  unfold goSplitN2
  split_ifs with h <;> simp [h]

theorem decodeSSUserInfo_snd (user : GoStr) : (decodeSSUserInfo user).2 = none := by
  unfold decodeSSUserInfo
  cases base64Decode user with
  | none => rfl
  | some dec => simp only; split_ifs <;> rfl

/-- C9: `decodeSSUserInfo` is total and never errors; the method is the
decoded text before the first `:` when the userinfo is valid base64 whose
decoding contains a `:`, and otherwise the raw userinfo before the first
`:` (the whole userinfo when it has none). -/
theorem c9_decodeSSUserInfo_total (user : GoStr) :
    (decodeSSUserInfo user).2 = none ∧
    (decodeSSUserInfo user).1 =
      match base64Decode user with
      | some dec =>
        if goContainsChar ':' (bytesGo dec) then (bytesGo dec).takeWhile (fun c => c != ':')
        else user.takeWhile (fun c => c != ':')
      | none => user.takeWhile (fun c => c != ':') := by
  refine ⟨decodeSSUserInfo_snd user, ?_⟩
  unfold decodeSSUserInfo
  cases hdec : base64Decode user with
  | none =>
    dsimp only
    exact goSplitN2_headD ':' user
  | some dec =>
    dsimp only
    by_cases hc : goContainsChar ':' (bytesGo dec) = true
    · rw [if_pos ((goSplitN2_length_two ':' (bytesGo dec)).mpr hc), if_pos hc]
      show (goSplitN2 ':' (bytesGo dec)).headD [] = _
      exact goSplitN2_headD ':' (bytesGo dec)
    · rw [if_neg (fun h => hc ((goSplitN2_length_two ':' (bytesGo dec)).mp h)), if_neg hc]
      show (goSplitN2 ':' user).headD [] = _
      exact goSplitN2_headD ':' user

/-- C10: a vmess port supplied as a JSON number is truncated toward zero
(floor for non-negative values, ceiling for negative ones) with no error and
no integrality check, and concretely a vmess line with port `443.9`
validates successfully and extracts as port 443. -/
theorem c10_float_port_truncates :
    (∀ m e : Int, extractPortFromJSON (some (JVal.jnum m e)) =
        some (if 0 ≤ decValue m e then ⌊decValue m e⌋ else ⌈decValue m e⌉)) ∧
    validateVmess c10Line = none ∧
    extractHostPort c10Line = some (goStr "h", 443) := by
  refine ⟨?_, by decide, by decide⟩
  intro m e
  simp only [extractPortFromJSON, Option.some.injEq]
  rcases le_or_lt 0 e with he | he
  · have h10 : decValue m e = ((m * 10 ^ e.toNat : Int) : ℚ) := by
      have hz : (10 : ℚ) ^ e = (10 : ℚ) ^ (e.toNat : Int) := by
        congr 1
        omega
      rw [decValue, hz, zpow_natCast]
      push_cast
      ring
    rw [h10, decTrunc, if_pos he]
    split_ifs <;> simp only [Int.floor_intCast, Int.ceil_intCast]
  · have hz : (10 : ℚ) ^ e = (10 : ℚ) ^ (-(((-e).toNat : Int))) := by
      congr 1
      omega
    have hval : decValue m e = (m : ℚ) / ((10 ^ (-e).toNat : ℕ) : ℚ) := by
      rw [decValue, hz, zpow_neg, zpow_natCast, div_eq_mul_inv]
      push_cast
      ring
    have hpow : (0 : ℚ) < ((10 ^ (-e).toNat : ℕ) : ℚ) := by positivity
    have hdt : decTrunc m e = Int.tdiv m (10 ^ (-e).toNat) := by
      rw [decTrunc, if_neg (by omega)]
    rcases le_or_lt 0 m with hm | hm
    · have hnn : 0 ≤ decValue m e := by
        rw [hval]
        exact div_nonneg (by exact_mod_cast hm) (le_of_lt hpow)
      rw [hdt, if_pos hnn, hval, Rat.floor_intCast_div_natCast,
        Int.tdiv_eq_ediv hm (by positivity)]
      norm_cast
    · have hneg : decValue m e < 0 := by
        rw [hval]
        exact div_neg_of_neg_of_pos (by exact_mod_cast hm) hpow
      rw [hdt, if_neg (not_le.mpr hneg), hval]
      have hmc : (m : ℚ) = -(((-m : Int) : ℤ) : ℚ) := by push_cast; ring
      rw [hmc, neg_div, Int.ceil_neg, Rat.floor_intCast_div_natCast]
      have hnt : Int.tdiv m (10 ^ (-e).toNat) = -Int.tdiv (-m) (10 ^ (-e).toNat) := by
        rw [Int.neg_tdiv, neg_neg]
      rw [hnt, Int.tdiv_eq_ediv (by omega) (by positivity)]
      norm_cast

theorem renameLoop_props (rr : Nat → Option GoStr) :
    ∀ fuel i,
      (renameLoop rr fuel i).1 ≠ [] ∧
      (renameLoop rr fuel i).1.countP isRenameAct ≤ fuel ∧
      (∀ j, FsAct.renameTmp j ∈ (renameLoop rr fuel i).1 →
        j = i ∨ (i < j ∧ ∃ msg, rr (j - 1) = some msg ∧ isBusyMsg msg = true)) ∧
      (∀ ms, FsAct.sleepMs ms ∈ (renameLoop rr fuel i).1 →
        ∃ j, FsAct.renameTmp j ∈ (renameLoop rr fuel i).1 ∧ ms = 200 * (j + 1) ∧
          ∃ msg, rr j = some msg ∧ isBusyMsg msg = true) ∧
      ((renameLoop rr fuel i).2 ≠ none →
        (renameLoop rr fuel i).1.getLast? = some FsAct.removeTmp) := by
  intro fuel
  induction fuel with
  | zero =>
    intro i
    refine ⟨by simp [renameLoop], by simp [renameLoop, isRenameAct], ?_, ?_, ?_⟩
    · intro j hj
      simp [renameLoop] at hj
    · intro ms hms
      simp [renameLoop] at hms
    · intro _
      simp [renameLoop]
  | succ fuel ih =>
    intro i
    cases hrr : rr i with
    | none =>
      refine ⟨by simp [renameLoop, hrr], by simp [renameLoop, hrr, isRenameAct], ?_, ?_, ?_⟩
      · intro j hj
        simp [renameLoop, hrr] at hj
        exact Or.inl hj
      · intro ms hms
        simp [renameLoop, hrr] at hms
      · intro hres
        exact absurd (by simp [renameLoop, hrr]) hres
    | some msg =>
      by_cases hb : isBusyMsg msg = true ∧ i < 5
      · have heq : renameLoop rr (fuel + 1) i =
            (FsAct.removeDest :: FsAct.renameTmp i ::
              FsAct.sleepMs (200 * (i + 1)) :: (renameLoop rr fuel (i + 1)).1,
             (renameLoop rr fuel (i + 1)).2) := by
          simp [renameLoop, hrr, hb]
        obtain ⟨ihne, ihcnt, ihmem, ihslp, ihlast⟩ := ih (i + 1)
        refine ⟨by simp [heq], ?_, ?_, ?_, ?_⟩
        · rw [heq]
          simp [List.countP_cons, isRenameAct]
          omega
        · intro j hj
          rw [heq] at hj
          simp only [List.mem_cons] at hj
          rcases hj with h | h | h | h
          · simp at h
          · injection h with h2
            exact Or.inl h2
          · simp at h
          · rcases ihmem j h with rfl | ⟨hlt, hmsg⟩
            · refine Or.inr ⟨by omega, msg, ?_, hb.1⟩
              simpa using hrr
            · exact Or.inr ⟨by omega, hmsg⟩
        · intro ms hms
          rw [heq] at hms
          simp only [List.mem_cons] at hms
          rcases hms with h | h | h | h
          · simp at h
          · simp at h
          · injection h with h2
            refine ⟨i, ?_, h2, msg, hrr, hb.1⟩
            rw [heq]
            simp
          · obtain ⟨j, hj1, hj2, hj3⟩ := ihslp ms h
            refine ⟨j, ?_, hj2, hj3⟩
            rw [heq]
            simp [hj1]
        · intro hres
          rw [heq] at hres ⊢
          simp only at hres ⊢
          obtain ⟨b, t, hbt⟩ : ∃ b t, (renameLoop rr fuel (i + 1)).1 = b :: t := by
            rcases h : (renameLoop rr fuel (i + 1)).1 with _ | ⟨b, t⟩
            · exact absurd h ihne
            · exact ⟨b, t, rfl⟩
          rw [hbt]
          rw [List.getLast?_cons_cons, List.getLast?_cons_cons, List.getLast?_cons_cons, ← hbt]
          exact ihlast hres
      · have heq : renameLoop rr (fuel + 1) i =
            ([FsAct.removeDest, FsAct.renameTmp i, FsAct.removeTmp], some msg) := by
          simp only [renameLoop, hrr]
          rw [if_neg hb]
        refine ⟨by simp [heq], by simp [heq, isRenameAct], ?_, ?_, ?_⟩
        · intro j hj
          simp [heq] at hj
          exact Or.inl hj
        · intro ms hms
          simp [heq] at hms
        · intro _
          simp [heq]

/-- C5: the rename over the destination is attempted at most 6 times; a
retry (attempt `i+1`) happens only when attempt `i` failed with a message
the busy test recognises; every sleep is the linear backoff `200ms × attempt
number` of a busy-failed attempt; and on every failure path (write, flush,
close, or final rename failure) the last filesystem action before the error
is returned removes the temporary file. -/
theorem c5_rename_retry (we fe ce : Bool) (rr : Nat → Option GoStr) :
    (writeBase64AtomicFs we fe ce rr).1.countP isRenameAct ≤ 6 ∧
    (∀ i, FsAct.renameTmp (i + 1) ∈ (writeBase64AtomicFs we fe ce rr).1 →
      ∃ msg, rr i = some msg ∧ isBusyMsg msg = true) ∧
    (∀ ms, FsAct.sleepMs ms ∈ (writeBase64AtomicFs we fe ce rr).1 →
      ∃ i, FsAct.renameTmp i ∈ (writeBase64AtomicFs we fe ce rr).1 ∧ ms = 200 * (i + 1) ∧
        ∃ msg, rr i = some msg ∧ isBusyMsg msg = true) ∧
    ((writeBase64AtomicFs we fe ce rr).2 ≠ none →
      (writeBase64AtomicFs we fe ce rr).1.getLast? = some FsAct.removeTmp) := by
  unfold writeBase64AtomicFs
  split_ifs with h1 h2 h3
  · exact ⟨by simp [isRenameAct], by intro i hi; simp at hi, by intro ms hms; simp at hms,
      by intro _; simp⟩
  · exact ⟨by simp [isRenameAct], by intro i hi; simp at hi, by intro ms hms; simp at hms,
      by intro _; simp⟩
  · exact ⟨by simp [isRenameAct], by intro i hi; simp at hi, by intro ms hms; simp at hms,
      by intro _; simp⟩
  · obtain ⟨hne, hcnt, hmem, hslp, hlast⟩ := renameLoop_props rr 6 0
    refine ⟨hcnt, ?_, hslp, hlast⟩
    intro i hi
    rcases hmem (i + 1) hi with h | ⟨_, hmsg⟩
    · omega
    · simpa using hmsg

/-- C5 witness: the theorem instantiated at a run whose first rename
succeeds. -/
theorem c5_rename_retry_witness :
    (writeBase64AtomicFs false false false (fun _ => none)).1.countP isRenameAct ≤ 6 ∧
    (∀ i, FsAct.renameTmp (i + 1) ∈ (writeBase64AtomicFs false false false (fun _ => none)).1 →
      ∃ msg, (fun _ => none : Nat → Option GoStr) i = some msg ∧ isBusyMsg msg = true) ∧
    (∀ ms, FsAct.sleepMs ms ∈ (writeBase64AtomicFs false false false (fun _ => none)).1 →
      ∃ i, FsAct.renameTmp i ∈ (writeBase64AtomicFs false false false (fun _ => none)).1 ∧
        ms = 200 * (i + 1) ∧
        ∃ msg, (fun _ => none : Nat → Option GoStr) i = some msg ∧ isBusyMsg msg = true) ∧
    ((writeBase64AtomicFs false false false (fun _ => none)).2 ≠ none →
      (writeBase64AtomicFs false false false (fun _ => none)).1.getLast? =
        some FsAct.removeTmp) :=
  c5_rename_retry false false false (fun _ => none)

/-- C3 counterexample: the probe result holds whitespace-trimmed lines, so
with an untrimmed input line (and a reachable endpoint) the result is not a
subset of the input set. -/
theorem c3_counterexample :
    filterReachableLines (fun _ _ => true) [c3Line] = [goStr "vless://u@h:80"] ∧
    goStr "vless://u@h:80" ∉ [c3Line] := by
  refine ⟨by decide, by decide⟩

/-- C3 (amended): the probe considers at most the first 1000 input lines —
its result is unchanged by dropping the rest — and every line of the result
is the whitespace-trim of one of the first 1000 input lines (so the result
is a subset of the set of trimmed input lines, not of the raw input set). -/
theorem c3_first_1000_trimmed (dial : GoStr → Int → Bool) (lines : List GoStr) :
    filterReachableLines dial lines = filterReachableLines dial (lines.take 1000) ∧
    ∀ l ∈ filterReachableLines dial lines, ∃ raw ∈ lines.take 1000, l = goTrimSpace raw := by
  constructor
  · unfold filterReachableLines
    rw [List.take_take, min_self]
  · intro l hl
    unfold filterReachableLines at hl
    obtain ⟨raw, hraw, hf⟩ := List.mem_filterMap.mp hl
    refine ⟨raw, hraw, ?_⟩
    dsimp only at hf
    split_ifs at hf with h1
    rcases hx : extractHostPort (goTrimSpace raw) with _ | hp
    · rw [hx] at hf
      exact absurd hf (by simp)
    · rw [hx] at hf
      dsimp only at hf
      split_ifs at hf with h2 h3
      injection hf with hf2
      exact hf2.symm

/-- C3 witness: the amended theorem instantiated at a one-line input with an
always-reachable dial oracle. -/
theorem c3_first_1000_trimmed_witness :
    goStr "vless://u@h:80" ∈
      filterReachableLines (fun _ _ => true) [goStr "vless://u@h:80"] ∧
    ∃ raw ∈ ([goStr "vless://u@h:80"] : List GoStr).take 1000,
      goStr "vless://u@h:80" = goTrimSpace raw :=
  ⟨by decide,
    (c3_first_1000_trimmed (fun _ _ => true) [goStr "vless://u@h:80"]).2
      (goStr "vless://u@h:80") (by decide)⟩

theorem splitByIPVersion_cons (l : GoStr) (rest : List GoStr) :
    splitByIPVersion (l :: rest) =
      ((if lineIsV4 l then l :: (splitByIPVersion rest).1 else (splitByIPVersion rest).1),
       (if lineIsV6 l then l :: (splitByIPVersion rest).2 else (splitByIPVersion rest).2)) := by
  rw [splitByIPVersion]
  cases hu : urlParse l with
  | none => simp [lineIsV4, lineIsV6, hu]
  | some u =>
    dsimp only
    by_cases hh : u.host = []
    · simp [lineIsV4, lineIsV6, hu, hh]
    · rw [if_neg hh]
      have hemp : u.host.isEmpty = false := by
        cases hcase : u.host with
        | nil => exact absurd hcase hh
        | cons a t => rfl
      simp only [lineIsV4, lineIsV6, hu, hostFamilyV4, hemp, Bool.not_false, Bool.true_and]
      split_ifs with h1 h2 <;> simp_all

/-- C6 counterexample: on `vless://u@1.2:3.4.5:80` the URI host is
`1.2:3.4.5:80`; the claim's rule (strip a trailing `:port`, then three dots
means IPv4) classifies it IPv4, but the code cuts at the *first* colon
(`1.2`, one dot) and buckets the line as IPv6. -/
theorem c6_counterexample :
    urlParse c6Line = some ⟨goStr "vless", some (goStr "u"), goStr "1.2:3.4.5:80"⟩ ∧
    claimHostFamilyV4 (goStr "1.2:3.4.5:80") = true ∧
    splitByIPVersion [c6Line] = ([], [c6Line]) := by
  refine ⟨by decide, by decide, by decide⟩

/-- C6 (amended): `splitByFamily` keeps input order and classifies each line
by its URI host — lines without a determinable host are dropped from both
buckets; otherwise the host is cut at its *first* `:` (not merely a trailing
`:port`), a bracketed remainder is IPv6, a remainder with exactly three dots
is IPv4 and anything else (hostnames included) is IPv6.  The three
documented examples land in the claimed buckets. -/
theorem c6_split_by_family :
    (∀ lines, splitByIPVersion lines = (lines.filter lineIsV4, lines.filter lineIsV6)) ∧
    splitByIPVersion [goStr "vless://u@203.0.113.5:443"] =
      ([goStr "vless://u@203.0.113.5:443"], []) ∧
    splitByIPVersion [goStr "vless://u@[2001:db8::1]:443"] =
      ([], [goStr "vless://u@[2001:db8::1]:443"]) ∧
    splitByIPVersion [goStr "vless://u@example.com:443"] =
      ([], [goStr "vless://u@example.com:443"]) := by
  refine ⟨?_, by decide, by decide, by decide⟩
  intro lines
  induction lines with
  | nil => rfl
  | cons l rest ih =>
    rw [splitByIPVersion_cons, ih, List.filter_cons, List.filter_cons]

/-- C8: for an `ss` line that parses with a non-empty host, a port in
(0, 65535] and non-empty (trimmed) userinfo, validation accepts exactly when
the derived method component is non-empty; the method derivation itself
never errors, so an empty password alone never causes rejection. -/
theorem c8_ss_accepts_iff_method_nonempty (line : GoStr) (u : GoURL) (p : Int)
    (hu : urlParse line = some u) (hh : u.hostname ≠ [])
    (hp : parsePort u.portStr = some p) (hp1 : 0 < p) (hp2 : p ≤ 65535)
    (huser : goTrimSpace (u.username.getD []) ≠ []) :
    (validateShadowsocks line = none ↔ (decodeSSUserInfo (u.username.getD [])).1 ≠ []) ∧
    (decodeSSUserInfo (u.username.getD [])).2 = none := by
  refine ⟨?_, decodeSSUserInfo_snd _⟩
  unfold validateShadowsocks
  rw [hu]
  dsimp only
  rw [if_neg hh, hp]
  dsimp only
  rw [if_neg (by omega : ¬(p ≤ 0 ∨ p > 65535)), if_neg huser,
    decodeSSUserInfo_snd (u.username.getD [])]
  dsimp only
  split_ifs with hm <;> simp [hm]

/-- C8 witness: the theorem instantiated at `ss://aes-256-gcm@host:80`. -/
theorem c8_ss_accepts_iff_method_nonempty_witness :
    (validateShadowsocks (goStr "ss://aes-256-gcm@host:80") = none ↔
      (decodeSSUserInfo (goStr "aes-256-gcm")).1 ≠ []) ∧
    (decodeSSUserInfo (goStr "aes-256-gcm")).2 = none :=
  c8_ss_accepts_iff_method_nonempty (goStr "ss://aes-256-gcm@host:80")
    ⟨goStr "ss", some (goStr "aes-256-gcm"), goStr "host:80"⟩ 80
    (by decide) (by decide) (by decide) (by decide) (by decide) (by decide)

theorem decodeVmessBase64_nil : decodeVmessBase64 [] = none := rfl

theorem validateVmess_eq_none_iff (line : GoStr) :
    validateVmess line = none ↔
      ∃ payload m p, decodeVmessBase64 (vmessPayload line) = some payload ∧
        jsonUnmarshalObj payload = some m ∧
        goTrimSpace (jsonStringOf (mapGet m (goStr "add"))) ≠ [] ∧
        extractPortFromJSON (mapGet m (goStr "port")) = some p ∧ 0 < p ∧ p ≤ 99999 ∧
        goTrimSpace (jsonStringOf (mapGet m (goStr "id"))) ≠ [] := by
  unfold validateVmess
  by_cases hraw : vmessPayload line = []
  · rw [if_pos hraw]
    simp only [hraw, decodeVmessBase64_nil]
    constructor
    · intro h
      exact absurd h (by simp)
    · rintro ⟨payload, m, p, hdec, -⟩
      exact absurd hdec (by simp)
  · rw [if_neg hraw]
    cases hdec : decodeVmessBase64 (vmessPayload line) with
    | none =>
      simp only [hdec]
      constructor
      · intro h
        exact absurd h (by simp)
      · rintro ⟨payload, m, p, hd, -⟩
        exact absurd hd (by simp)
    | some payload =>
      simp only [hdec]
      cases hjs : jsonUnmarshalObj payload with
      | none =>
        simp only
        constructor
        · intro h
          exact absurd h (by simp)
        · rintro ⟨payload2, m, p, hd, hj, -⟩
          rw [Option.some.injEq] at hd
          subst hd
          exact absurd (hjs ▸ hj) (by simp)
      | some m =>
        simp only
        by_cases hadd : goTrimSpace (jsonStringOf (mapGet m (goStr "add"))) = []
        · rw [if_pos hadd]
          constructor
          · intro h
            exact absurd h (by simp)
          · rintro ⟨payload2, m2, p, hd, hj, ha, -⟩
            rw [Option.some.injEq] at hd
            subst hd
            rw [hjs, Option.some.injEq] at hj
            subst hj
            exact absurd hadd ha
        · rw [if_neg hadd]
          cases hport : extractPortFromJSON (mapGet m (goStr "port")) with
          | none =>
            simp only
            constructor
            · intro h
              exact absurd h (by simp)
            · rintro ⟨payload2, m2, p, hd, hj, -, hp, -⟩
              rw [Option.some.injEq] at hd
              subst hd
              rw [hjs, Option.some.injEq] at hj
              subst hj
              exact absurd (hport ▸ hp) (by simp)
          | some p =>
            simp only
            by_cases hrange : p ≤ 0 ∨ p > 99999
            · rw [if_pos hrange]
              constructor
              · intro h
                exact absurd h (by simp)
              · rintro ⟨payload2, m2, p2, hd, hj, -, hp, h1, h2, -⟩
                rw [Option.some.injEq] at hd
                subst hd
                rw [hjs, Option.some.injEq] at hj
                subst hj
                rw [hport, Option.some.injEq] at hp
                subst hp
                omega
            · rw [if_neg hrange]
              by_cases hid : goTrimSpace (jsonStringOf (mapGet m (goStr "id"))) = []
              · rw [if_pos hid]
                constructor
                · intro h
                  exact absurd h (by simp)
                · rintro ⟨payload2, m2, p2, hd, hj, -, hp, -, -, hi⟩
                  rw [Option.some.injEq] at hd
                  subst hd
                  rw [hjs, Option.some.injEq] at hj
                  subst hj
                  exact absurd hid hi
              · rw [if_neg hid]
                constructor
                · intro _
                  exact ⟨payload, m, p, rfl, hjs, hadd, hport, by omega, by omega, hid⟩
                · intro _
                  rfl

theorem validateVless_parse (line : GoStr) (hv : validateVless line = none) :
    ∃ u, urlParse line = some u ∧ u.hostname ≠ [] ∧ ∃ p, parsePort u.portStr = some p := by
  unfold validateVless at hv
  cases hu : urlParse line with
  | none =>
    rw [hu] at hv
    exact absurd hv (by simp)
  | some u =>
    rw [hu] at hv
    dsimp only at hv
    by_cases hh : u.hostname = []
    · rw [if_pos hh] at hv
      exact absurd hv (by simp)
    · rw [if_neg hh] at hv
      cases hp : parsePort u.portStr with
      | none =>
        rw [hp] at hv
        exact absurd hv (by simp)
      | some p => exact ⟨u, rfl, hh, p, hp⟩

theorem validateTrojan_parse (line : GoStr) (hv : validateTrojan line = none) :
    ∃ u, urlParse line = some u ∧ u.hostname ≠ [] ∧ ∃ p, parsePort u.portStr = some p := by
  unfold validateTrojan at hv
  cases hu : urlParse line with
  | none =>
    rw [hu] at hv
    exact absurd hv (by simp)
  | some u =>
    rw [hu] at hv
    dsimp only at hv
    by_cases hh : u.hostname = []
    · rw [if_pos hh] at hv
      exact absurd hv (by simp)
    · rw [if_neg hh] at hv
      cases hp : parsePort u.portStr with
      | none =>
        rw [hp] at hv
        exact absurd hv (by simp)
      | some p => exact ⟨u, rfl, hh, p, hp⟩

theorem validateShadowsocks_parse (line : GoStr) (hv : validateShadowsocks line = none) :
    ∃ u, urlParse line = some u ∧ u.hostname ≠ [] ∧ ∃ p, parsePort u.portStr = some p := by
  unfold validateShadowsocks at hv
  cases hu : urlParse line with
  | none =>
    rw [hu] at hv
    exact absurd hv (by simp)
  | some u =>
    rw [hu] at hv
    dsimp only at hv
    by_cases hh : u.hostname = []
    · rw [if_pos hh] at hv
      exact absurd hv (by simp)
    · rw [if_neg hh] at hv
      cases hp : parsePort u.portStr with
      | none =>
        rw [hp] at hv
        exact absurd hv (by simp)
      | some p => exact ⟨u, rfl, hh, p, hp⟩

theorem uri_extract_of_parse (line : GoStr) (u : GoURL) (p : Int)
    (hpre : goHasPfx (goStr "vless://") line = true ∨ goHasPfx (goStr "trojan://") line = true ∨
      goHasPfx (goStr "ss://") line = true)
    (ht : goTrimSpace line = line)
    (hu : urlParse line = some u) (hh : u.hostname ≠ [])
    (hp : parsePort u.portStr = some p) :
    extractHostPort line = some (u.hostname, p) := by
  have hps : u.portStr ≠ [] := by
    intro h
    rw [parsePort, if_pos h] at hp
    exact absurd hp (by simp)
  have hatoi : goAtoi u.portStr = some p := by
    rw [parsePort, if_neg hps] at hp
    exact hp
  unfold extractHostPort
  rw [ht, if_pos hpre, hu]
  dsimp only
  rw [if_neg (by tauto : ¬(u.hostname = [] ∨ u.portStr = [])), hatoi]
  rfl

theorem isPrefixOf_of_isPrefixOf (l : GoStr) : ∀ a b : GoStr, a.isPrefixOf l = true →
    b.isPrefixOf l = true → a.length ≤ b.length → a.isPrefixOf b = true := by
  induction l with
  | nil =>
    intro a b ha hb hlen
    cases a with
    | nil =>
      cases b with
      | nil => rfl
      | cons y ys => rfl
    | cons x xs => exact absurd ha (by simp [List.isPrefixOf])
  | cons c t ih =>
    intro a b ha hb hlen
    cases a with
    | nil =>
      cases b with
      | nil => rfl
      | cons y ys => rfl
    | cons x xs =>
      cases b with
      | nil => simp at hlen
      | cons y ys =>
        simp only [List.isPrefixOf, Bool.and_eq_true, beq_iff_eq] at ha hb ⊢
        obtain ⟨rfl, ha2⟩ := ha
        obtain ⟨rfl, hb2⟩ := hb
        exact ⟨rfl, ih xs ys ha2 hb2 (by simpa using hlen)⟩

theorem goHasPfx_false_of (p q line : GoStr) (hq : goHasPfx q line = true)
    (hd : p.isPrefixOf q = false ∧ q.isPrefixOf p = false) : goHasPfx p line = false := by
  unfold goHasPfx at hq ⊢
  by_contra h
  rw [Bool.not_eq_false] at h
  rcases Nat.le_total p.length q.length with hl | hl
  · have h2 := isPrefixOf_of_isPrefixOf line p q h hq hl
    rw [hd.1] at h2
    exact absurd h2 (by simp)
  · have h2 := isPrefixOf_of_isPrefixOf line q p hq h hl
    rw [hd.2] at h2
    exact absurd h2 (by simp)

/-- C1 counterexample: `vless://u@h:70000` is rejected by `validateLine`
(port out of the (0, 65535] range) but `extractHostPort` succeeds, because
the probe's extraction performs no port-range (or userinfo) check. -/
theorem c1_counterexample :
    validateLine c1Line = some (VErr.portOutOfRange 70000) ∧
    extractHostPort c1Line = some (goStr "h", 70000) :=
  ⟨by decide, by decide⟩

/-- C1 (amended): on whitespace-trimmed lines, endpoint extraction succeeds
whenever validation succeeds — `extractHostPort` fails on the same parse,
host and port-syntax failures as `validateLine`, but does not re-check the
port range or the userinfo/id, so the containment holds in this direction
only. -/
theorem c1_validate_implies_extract (line : GoStr) (ht : goTrimSpace line = line)
    (hv : validateLine line = none) : (extractHostPort line).isSome = true := by
  unfold validateLine at hv
  split_ifs at hv with h1 h2 h3 h4
  · have e1 : goHasPfx (goStr "vless://") line = false :=
      goHasPfx_false_of _ _ _ h1 (by decide)
    have e2 : goHasPfx (goStr "trojan://") line = false :=
      goHasPfx_false_of _ _ _ h1 (by decide)
    have e3 : goHasPfx (goStr "ss://") line = false :=
      goHasPfx_false_of _ _ _ h1 (by decide)
    obtain ⟨payload, m, p, hdec, hjs, hadd, hport, -, -, -⟩ :=
      (validateVmess_eq_none_iff line).mp hv
    have hraw : vmessPayload line ≠ [] := by
      intro h0
      rw [h0, decodeVmessBase64_nil] at hdec
      exact absurd hdec (by simp)
    unfold extractHostPort
    rw [ht, if_neg (by simp [e1, e2, e3]), if_pos h1]
    dsimp only
    rw [if_neg hraw, hdec]
    dsimp only
    rw [hjs]
    dsimp only
    rw [if_neg hadd, hport]
    rfl
  · obtain ⟨u, hu, hh, pp, hp⟩ := validateVless_parse line hv
    rw [uri_extract_of_parse line u pp (Or.inl h2) ht hu hh hp]
    rfl
  · obtain ⟨u, hu, hh, pp, hp⟩ := validateTrojan_parse line hv
    rw [uri_extract_of_parse line u pp (Or.inr (Or.inl h3)) ht hu hh hp]
    rfl
  · obtain ⟨u, hu, hh, pp, hp⟩ := validateShadowsocks_parse line hv
    rw [uri_extract_of_parse line u pp (Or.inr (Or.inr h4)) ht hu hh hp]
    rfl

/-- C1 witness: the amended theorem instantiated at a valid vless line. -/
theorem c1_validate_implies_extract_witness :
    (extractHostPort (goStr "vless://u@h:80")).isSome = true :=
  c1_validate_implies_extract (goStr "vless://u@h:80") (by decide) (by decide)

theorem vmessValidSpec_iff (line : GoStr) :
    vmessValidSpec line = true ↔
      ∃ payload m p, decodeVmessBase64 (vmessPayload line) = some payload ∧
        jsonUnmarshalObj payload = some m ∧
        goTrimSpace (jsonStringOf (mapGet m (goStr "add"))) ≠ [] ∧
        extractPortFromJSON (mapGet m (goStr "port")) = some p ∧ 0 < p ∧ p ≤ 99999 ∧
        goTrimSpace (jsonStringOf (mapGet m (goStr "id"))) ≠ [] := by
  unfold vmessValidSpec
  cases hdec : decodeVmessBase64 (vmessPayload line) with
  | none =>
    constructor
    · intro h
      exact absurd h (by simp)
    · rintro ⟨payload, m, p, hd, -⟩
      exact absurd hd (by simp)
  | some payload =>
    dsimp only
    cases hjs : jsonUnmarshalObj payload with
    | none =>
      constructor
      · intro h
        exact absurd h (by simp)
      · rintro ⟨payload2, m, p, hd, hj, -⟩
        rw [Option.some.injEq] at hd
        subst hd
        rw [hjs] at hj
        exact absurd hj (by simp)
    | some m =>
      dsimp only
      constructor
      · intro h
        rw [Bool.and_eq_true, Bool.and_eq_true] at h
        obtain ⟨⟨hadd, hpm⟩, hid⟩ := h
        simp only [Bool.not_eq_true', List.isEmpty_eq_false] at hadd hid
        rcases hpe : extractPortFromJSON (mapGet m (goStr "port")) with _ | p
        · rw [hpe] at hpm
          exact absurd hpm (by simp)
        · rw [hpe] at hpm
          rw [Bool.and_eq_true, decide_eq_true_eq, decide_eq_true_eq] at hpm
          exact ⟨payload, m, p, rfl, hjs, hadd, hpe, hpm.1, hpm.2, hid⟩
      · rintro ⟨payload2, m2, p2, hd, hj, hadd, hp, h1, h2, hid⟩
        rw [Option.some.injEq] at hd
        subst hd
        rw [hjs, Option.some.injEq] at hj
        subst hj
        rw [hp]
        simp [hadd, hid, h1, h2]

/-- C4 counterexample: a vmess line whose JSON has `add = " "` (non-empty,
whitespace only), `port = 443` and `id = "u"` satisfies the claim's "validation
succeeds exactly when ... non-empty add string ..." condition, yet
`validateVmess` rejects it: the code requires `add` (and `id`) to be
non-empty after `TrimSpace`. -/
theorem c4_counterexample :
    vmessValidClaim c4Cex = true ∧ validateVmess c4Cex = some VErr.vmessMissingAdd :=
  ⟨by decide, by decide⟩

/-- C4 (amended): vmess validation succeeds exactly when the payload (after
`#`-cut, trim and URL-safe/padding normalization) base64-decodes to a JSON
object with an `add` string non-empty after whitespace trimming, a port
(JSON string, integer or float; non-numeric strings fail) coercing to
`0 < p ≤ 99999`, and an `id` string non-empty after whitespace trimming. -/
theorem c4_vmess_validation_iff (line : GoStr) :
    validateVmess line = none ↔ vmessValidSpec line = true :=
  (validateVmess_eq_none_iff line).trans (vmessValidSpec_iff line).symm

/-- C4 witness: port as the string "443" and as the integer 443 both
validate and yield the same extracted numeric port. -/
theorem c4_vmess_validation_iff_witness :
    validateVmess c4LineStr = none ∧ validateVmess c4LineInt = none ∧
    extractHostPort c4LineStr = some (goStr "1.2.3.4", 443) ∧
    extractHostPort c4LineInt = some (goStr "1.2.3.4", 443) :=
  ⟨(c4_vmess_validation_iff c4LineStr).mpr (by decide),
   (c4_vmess_validation_iff c4LineInt).mpr (by decide),
   by decide, by decide⟩

theorem b64Char_pred : ∀ v < 64, (b64Char v != '\r' && b64Char v != '\n') = true := by decide

theorem b64Char_ne_pad : ∀ v < 64, ¬ b64Char v = '=' := by decide

theorem encode_chars (bs : List Nat) (h : ∀ b ∈ bs, b < 256) :
    ∀ c ∈ base64EncodeBytes bs, (c != '\r' && c != '\n') = true := by
  induction bs using base64EncodeBytes.induct with
  | case1 =>
    intro c hc
    exact absurd hc (by simp [base64EncodeBytes])
  | case2 b0 =>
    have hb0 : b0 < 256 := h b0 (by simp)
    intro c hc
    rw [base64EncodeBytes] at hc
    simp only [List.mem_cons, List.not_mem_nil, or_false] at hc
    rcases hc with rfl | rfl | rfl | rfl
    · exact b64Char_pred _ (by omega)
    · exact b64Char_pred _ (by omega)
    · decide
    · decide
  | case3 b0 b1 =>
    have hb0 : b0 < 256 := h b0 (by simp)
    have hb1 : b1 < 256 := h b1 (by simp)
    intro c hc
    rw [base64EncodeBytes] at hc
    simp only [List.mem_cons, List.not_mem_nil, or_false] at hc
    rcases hc with rfl | rfl | rfl | rfl
    · exact b64Char_pred _ (by omega)
    · exact b64Char_pred _ (by omega)
    · exact b64Char_pred _ (by omega)
    · decide
  | case4 b0 b1 b2 rest ih =>
    have hb0 : b0 < 256 := h b0 (by simp)
    have hb1 : b1 < 256 := h b1 (by simp)
    have hb2 : b2 < 256 := h b2 (by simp)
    intro c hc
    rw [base64EncodeBytes] at hc
    simp only [List.mem_cons] at hc
    rcases hc with rfl | rfl | rfl | rfl | h0
    · exact b64Char_pred _ (by omega)
    · exact b64Char_pred _ (by omega)
    · exact b64Char_pred _ (by omega)
    · exact b64Char_pred _ (by omega)
    · exact ih (fun b hb => h b (by simp [hb])) c h0

theorem base64DecodeCore_encode (bs : List Nat) (h : ∀ b ∈ bs, b < 256) :
    base64DecodeCore (base64EncodeBytes bs) = some bs := by
  induction bs using base64EncodeBytes.induct with
  | case1 => rfl
  | case2 b0 =>
    have hb0 : b0 < 256 := h b0 (by simp)
    rw [base64EncodeBytes, base64DecodeCore]
    rw [b64Val_b64Char _ (by omega : b0 / 4 < 64),
      b64Val_b64Char _ (by omega : b0 % 4 * 16 < 64)]
    dsimp only
    rw [if_pos rfl, if_neg (by simp), if_pos rfl]
    congr 1
    congr 1
    omega
  | case3 b0 b1 =>
    have hb0 : b0 < 256 := h b0 (by simp)
    have hb1 : b1 < 256 := h b1 (by simp)
    rw [base64EncodeBytes, base64DecodeCore]
    rw [b64Val_b64Char _ (by omega : b0 / 4 < 64),
      b64Val_b64Char _ (by omega : b0 % 4 * 16 + b1 / 16 < 64)]
    dsimp only
    rw [if_pos rfl, if_neg (by simp), if_neg (b64Char_ne_pad _ (by omega)),
      b64Val_b64Char _ (by omega : b1 % 16 * 4 < 64)]
    dsimp only
    congr 1
    refine List.cons_eq_cons.mpr ⟨by omega, ?_⟩
    refine List.cons_eq_cons.mpr ⟨by omega, rfl⟩
  | case4 b0 b1 b2 rest ih =>
    have hb0 : b0 < 256 := h b0 (by simp)
    have hb1 : b1 < 256 := h b1 (by simp)
    have hb2 : b2 < 256 := h b2 (by simp)
    rw [base64EncodeBytes, base64DecodeCore]
    rw [b64Val_b64Char _ (by omega : b0 / 4 < 64),
      b64Val_b64Char _ (by omega : b0 % 4 * 16 + b1 / 16 < 64)]
    dsimp only
    rw [if_neg (b64Char_ne_pad _ (by omega : b2 % 64 < 64)),
      b64Val_b64Char _ (by omega : b1 % 16 * 4 + b2 / 64 < 64),
      b64Val_b64Char _ (by omega : b2 % 64 < 64)]
    dsimp only
    rw [ih (fun b hb => h b (by simp [hb]))]
    dsimp only [Option.map]
    congr 1
    refine List.cons_eq_cons.mpr ⟨by omega, ?_⟩
    refine List.cons_eq_cons.mpr ⟨by omega, ?_⟩
    refine List.cons_eq_cons.mpr ⟨by omega, rfl⟩

theorem base64_roundtrip (bs : List Nat) (h : ∀ b ∈ bs, b < 256) :
    base64Decode (base64EncodeBytes bs) = some bs := by
  rw [base64Decode, List.filter_eq_self.mpr (encode_chars bs h)]
  exact base64DecodeCore_encode bs h

theorem bytesGo_goBytes (s : GoStr) : bytesGo (goBytes s) = s := by
  induction s with
  | nil => rfl
  | cons c t ih =>
    show Char.ofNat c.toNat :: bytesGo (goBytes t) = c :: t
    rw [Char.ofNat_toNat, ih]

theorem goSplitByte_no_sep (sep : Char) (l : GoStr) (h : ∀ c ∈ l, c ≠ sep) :
    goSplitByte sep l = [l] := by
  induction l with
  | nil => rfl
  | cons c rest ih =>
    rw [goSplitByte, if_neg (h c (by simp)), ih (fun x hx => h x (by simp [hx]))]

theorem goSplitByte_append (sep : Char) (l rest : GoStr) (h : ∀ c ∈ l, c ≠ sep) :
    goSplitByte sep (l ++ sep :: rest) = l :: goSplitByte sep rest := by
  induction l with
  | nil =>
    simp only [List.nil_append]
    rw [goSplitByte, if_pos rfl]
  | cons c t ih =>
    simp only [List.cons_append]
    rw [goSplitByte, if_neg (h c (by simp)), ih (fun x hx => h x (by simp [hx]))]

theorem goSplitByte_nonempty (sep : Char) (l : GoStr) : goSplitByte sep l ≠ [] := by
  induction l with
  | nil => simp [goSplitByte]
  | cons c rest ih =>
    rw [goSplitByte]
    split_ifs
    · simp
    · rcases hsp : goSplitByte sep rest with _ | ⟨hd, tl⟩ <;> simp

theorem goSplitByte_joinNl (ls : List GoStr) (hne : ls ≠ [])
    (h : ∀ l ∈ ls, ∀ c ∈ l, c ≠ '\n') :
    goSplitByte '\n' (goJoinNl ls) = ls := by
  induction ls with
  | nil => exact absurd rfl hne
  | cons x xs ih =>
    cases xs with
    | nil =>
      show goSplitByte '\n' (goJoinNl [x]) = [x]
      rw [goJoinNl]
      exact goSplitByte_no_sep _ _ (h x (by simp))
    | cons y ys =>
      show goSplitByte '\n' (x ++ '\n' :: goJoinNl (y :: ys)) = x :: y :: ys
      rw [goSplitByte_append _ _ _ (h x (by simp)),
        ih (List.cons_ne_nil y ys) (fun l hl => h l (by simp [hl]))]

theorem mem_goJoinNl (ls : List GoStr) (c : Char) (hc : c ∈ goJoinNl ls) :
    c = '\n' ∨ ∃ l, l ∈ ls ∧ c ∈ l := by
  induction ls with
  | nil => exact absurd hc (by simp [goJoinNl])
  | cons x xs ih =>
    cases xs with
    | nil =>
      rw [goJoinNl] at hc
      exact Or.inr ⟨x, by simp, hc⟩
    | cons y ys =>
      have hc2 : c ∈ x ++ '\n' :: goJoinNl (y :: ys) := hc
      rcases List.mem_append.mp hc2 with hx | hrest
      · exact Or.inr ⟨x, by simp, hx⟩
      · rcases List.mem_cons.mp hrest with rfl | hj
        · exact Or.inl rfl
        · rcases ih hj with hnl | ⟨l, hl, hcl⟩
          · exact Or.inl hnl
          · exact Or.inr ⟨l, by simp [hl], hcl⟩

/-- C2 counterexample: exporting the empty list writes the empty byte
string, which decodes to the empty text; splitting that on newline yields
`[""]` (Go `strings.Split("", "\n")`), not the empty input list. -/
theorem c2_counterexample :
    writeBase64SortedContent [] = [] ∧ writeBase64NoSortContent [] = [] ∧
    (base64Decode (writeBase64NoSortContent [])).map
      (fun bs => goSplitByte '\n' (bytesGo bs)) = some [[]] ∧
    some [[]] ≠ some ([] : List GoStr) :=
  ⟨by rw [writeBase64SortedContent, sortStrings, List.mergeSort_nil]; rfl,
   by decide, by decide, by decide⟩

/-- C2 (amended): for every non-empty list of newline-free byte strings,
base64-decoding the bytes export writes and splitting the decoded text on
newline reproduces exactly the input list — sorted when `sorted = true`, in
input order otherwise.  (The empty list exports the same bytes as `[""]`
and decodes back to `[""]`.) -/
theorem c2_export_roundtrip (lines : List GoStr) (sorted : Bool) (hne : lines ≠ [])
    (hb : ∀ l ∈ lines, ∀ c ∈ l, c ≠ '\n' ∧ c.toNat < 256) :
    (base64Decode (if sorted then writeBase64SortedContent lines
        else writeBase64NoSortContent lines)).map
      (fun bs => goSplitByte '\n' (bytesGo bs)) =
      some (if sorted then sortStrings lines else lines) := by
  have main : ∀ ls : List GoStr, ls ≠ [] → (∀ l ∈ ls, ∀ c ∈ l, c ≠ '\n' ∧ c.toNat < 256) →
      (base64Decode (writeBase64AtomicContent ls)).map
        (fun bs => goSplitByte '\n' (bytesGo bs)) = some ls := by
    intro ls hne2 hb2
    unfold writeBase64AtomicContent
    rw [base64_roundtrip _ ?bound]
    case bound =>
      intro b hbmem
      obtain ⟨c, hcmem, rfl⟩ := List.mem_map.mp hbmem
      rcases mem_goJoinNl ls c hcmem with rfl | ⟨l, hl, hcl⟩
      · decide
      · exact (hb2 l hl c hcl).2
    show some (goSplitByte '\n' (bytesGo (goBytes (goJoinNl ls)))) = some ls
    rw [bytesGo_goBytes,
      goSplitByte_joinNl ls hne2 (fun l hl c hc => (hb2 l hl c hc).1)]
  cases sorted with
  | false =>
    simp only [Bool.false_eq_true, if_false]
    exact main lines hne hb
  | true =>
    simp only [if_true]
    show (base64Decode (writeBase64AtomicContent (sortStrings lines))).map
        (fun bs => goSplitByte '\n' (bytesGo bs)) = some (sortStrings lines)
    refine main (sortStrings lines) ?_ ?_
    · intro h0
      have := @List.length_mergeSort GoStr goStrLe lines
      rw [show List.mergeSort lines goStrLe = sortStrings lines from rfl, h0] at this
      simp at this
      exact hne (List.eq_nil_of_length_eq_zero this.symm)
    · intro l hl
      exact hb l (List.mem_mergeSort.mp hl)

/-- C2 witness: a two-line export with `sorted = true` decodes and splits
back to the sorted list. -/
theorem c2_export_roundtrip_witness :
    (base64Decode (if true then writeBase64SortedContent [goStr "b", goStr "a"]
        else writeBase64NoSortContent [goStr "b", goStr "a"])).map
      (fun bs => goSplitByte '\n' (bytesGo bs)) =
      some (if true then sortStrings [goStr "b", goStr "a"]
        else [goStr "b", goStr "a"]) :=
  c2_export_roundtrip [goStr "b", goStr "a"] true (by decide) (by decide)
